import Mathlib

/-!
Verification of the board/round/resolution logic of the
`classical-concepts-2-trainer` repository (`internal/game/game.go`,
the later of the two revisions in that file — the one with objectives,
the `End` resolution engine and the `EndState`).

Shallow-embedding conventions:
* The 5×7 tile grid (`board [NUM_ROWS][NUM_COLS]tile`) is a function
  from positions to tiles.  `tile.x`/`tile.y` (fixed pixel coordinates,
  used only by rendering and by `ShapeHit`) are not represented; the
  per-tick cursor hit test `ShapeHit(tile.x, tile.y, cx, cy)` is
  abstracted as a per-cell boolean predicate `hit : Pos → Bool`, one
  snapshot per tick, exactly as the cursor enters `HandleMouseInBoard`
  only through that test.
* `tile.rotation` is a `float32` in the source, but the code only ever
  sets it to `0` or increments it by `1`, so `Nat` models the values
  the program produces for the state/rotation claims at issue.
* `timeLeft` is a `float32` holding seconds, decremented each tick by
  `elapsedMillis / 1000` where `elapsedMillis` is the whole number of
  measured milliseconds since the previous tick.  The embedding scales
  time by 1000 and tracks whole milliseconds in `ℤ` (countdown start
  `MAX_TIME * 1000`), an exact rendering of the source's subtraction,
  clamp and transition logic up to `float32` rounding.
* The per-round random draws (`rand.Intn(2)+1`, `rand.Intn(4)`) are
  parameters of `Reset`.
* Go loops that write each visited cell independently are rendered
  pointwise; the one loop whose iterations interact through a shared
  array (`End`'s reflection pass writing `states[nr][nc]`) is rendered
  as the corresponding left fold over the row-major traversal order.
-/

namespace CCT

/-- Number of board rows (`NUM_ROWS = 5` in the source). -/
abbrev NUM_ROWS : Nat := 5

/-- Number of board columns (`NUM_COLS = 7` in the source). -/
abbrev NUM_COLS : Nat := 7

/-- Countdown maximum (`MAX_TIME = 15` in the source). -/
abbrev MAX_TIME : ℤ := 15

/-- Tile states, from the `TileState` constants of the source
(`EmptyTile`, `AlphaTile`, `BetaTile`, `CenterTile`, `MouseOverTile`,
`PlayerTile`, `InvalidTile = -1`).  Only equality tests are performed on
tile states in the source, so an inductive type is a faithful model of
the integer encoding. -/
inductive TileState where
  | EmptyTile
  | AlphaTile
  | BetaTile
  | CenterTile
  | MouseOverTile
  | PlayerTile
  | InvalidTile
deriving DecidableEq, Repr

/-- The predicate `state == AlphaTile || state == BetaTile || state ==
CenterTile` that the source repeats in `UpdateBoard` and in both passes
of `End`'s reflection transform. -/
def isSymbol : TileState → Bool
  | .AlphaTile => true
  | .BetaTile => true
  | .CenterTile => true
  | _ => false

/-- A board coordinate: the source's `BoardPosition{row, column int}`,
restricted to the in-range values the program actually produces. -/
abbrev Pos : Type := Fin NUM_ROWS × Fin NUM_COLS

/-- One grid cell (`tile` in the source, minus the fixed pixel
coordinates `x`,`y`, see the header comment). -/
structure Tile where
  state : TileState
  rotation : Nat
deriving DecidableEq, Repr

/-- The board `[NUM_ROWS][NUM_COLS]tile`, indexed as `b (r, c)`. -/
abbrev Board : Type := Pos → Tile

/-- Game session states (`StandByState`, `PlayingState`, `EndState`). -/
inductive GameState where
  | StandByState
  | PlayingState
  | EndState
deriving DecidableEq, Repr

/-- The fields of the source's `game` struct that the board, round and
resolution logic reads or writes (fonts, text images, button geometry
and the cached cursor colors are rendering-only and omitted). -/
structure Game where
  board : Board
  symbolObjective : TileState
  columnObjective : Fin 4
  centerSymbolPosition : Pos
  objectiveSymbolPosition : Pos
  win : Bool
  state : GameState
  timeLeft : ℤ

/-- `RemoveTileWithState`: every cell whose state equals `s` becomes
`EmptyTile`.  The Go loop writes each visited cell independently, so it
is rendered pointwise.  Note the source resets only `.state`; the
rotation of a cleared cell is left as it was. -/
def RemoveTileWithState (b : Board) (s : TileState) : Board :=
  fun p => if (b p).state = s then { b p with state := .EmptyTile } else b p

/-- `SetTile(c, r, state)`: for `PlayerTile`/`MouseOverTile` first clear
every prior holder of that state, then write the state at `board[r][c]`
and reset that cell's rotation to `0`.  The argument order `(c, r)` is
the source's. -/
def SetTile (b : Board) (c : Fin NUM_COLS) (r : Fin NUM_ROWS) (s : TileState) : Board :=
  let b' := if s = .PlayerTile ∨ s = .MouseOverTile then RemoveTileWithState b s else b
  fun p => if p = (r, c) then { state := s, rotation := 0 } else b' p

/-- The row-major traversal order of the source's nested
`for r ... for c ...` loops. -/
def rowMajor : List Pos :=
  (List.finRange NUM_ROWS).flatMap fun r => (List.finRange NUM_COLS).map fun c => (r, c)

/-- `HandleMouseInBoard`: scan cells in row-major order; at the first
cell that is `EmptyTile` or `MouseOverTile` and is hit by the cursor,
set `PlayerTile` if the left button is pressed, otherwise
`MouseOverTile`, and return.  The cursor enters only through the
per-cell `ShapeHit` test, abstracted as `hit`. -/
def HandleMouseInBoard (hit : Pos → Bool) (pressed : Bool) (b : Board) : Board :=
  match rowMajor.find?
      (fun p => ((b p).state = .EmptyTile || (b p).state = .MouseOverTile) && hit p) with
  | some p => if pressed then SetTile b p.2 p.1 .PlayerTile else SetTile b p.2 p.1 .MouseOverTile
  | none => b

/-- `UpdateBoard`: each tick, every `AlphaTile`/`BetaTile`/`CenterTile`
cell gets `rotation += 1`. -/
def UpdateBoard (b : Board) : Board :=
  fun p => if isSymbol (b p).state then { b p with rotation := (b p).rotation + 1 } else b p

/-- `FindPlayerPosition`: first cell in row-major order whose state is
`PlayerTile` (the source returns `(bool, BoardPosition)`; `Option`
models that pair). -/
def FindPlayerPosition (b : Board) : Option Pos :=
  rowMajor.find? fun p => (b p).state = .PlayerTile

/-- `TilesAroundATileWithAnState`: probe the four cells exactly two
steps away — up, down, left, right, in that append order — each guarded
by the source's bounds check, and keep those whose state equals `s`. -/
def TilesAroundATileWithAnState (b : Board) (row : Fin NUM_ROWS) (col : Fin NUM_COLS)
    (s : TileState) : List Pos :=
  (if _h : 1 < row.val then
    let p : Pos := (⟨row.val - 2, Nat.lt_of_le_of_lt (Nat.sub_le _ _) row.isLt⟩, col)
    if (b p).state = s then [p] else []
  else []) ++
  (if h : row.val < NUM_ROWS - 2 then
    let p : Pos := (⟨row.val + 2, Nat.add_lt_of_lt_sub h⟩, col)
    if (b p).state = s then [p] else []
  else []) ++
  (if _h : 1 < col.val then
    let p : Pos := (row, ⟨col.val - 2, Nat.lt_of_le_of_lt (Nat.sub_le _ _) col.isLt⟩)
    if (b p).state = s then [p] else []
  else []) ++
  (if h : col.val < NUM_COLS - 2 then
    let p : Pos := (row, ⟨col.val + 2, Nat.add_lt_of_lt_sub h⟩)
    if (b p).state = s then [p] else []
  else [])

/-- The target coordinates of `End`'s reflection pass:
`nr = rows - 1 - r`, `nc = cols - 1 - c`. -/
def reflect (p : Pos) : Pos :=
  (⟨NUM_ROWS - 1 - p.1.val, Nat.lt_of_le_of_lt (Nat.sub_le _ _) (Nat.sub_lt (by decide) (by decide))⟩,
   ⟨NUM_COLS - 1 - p.2.val, Nat.lt_of_le_of_lt (Nat.sub_le _ _) (Nat.sub_lt (by decide) (by decide))⟩)

/-- One iteration of `End`'s first loop over the board: if the visited
cell holds a symbol, write that symbol into the scratch `states` array
at the reflected coordinates. -/
def reflectStep (b : Board) (st : Pos → TileState) (p : Pos) : Pos → TileState :=
  if isSymbol (b p).state then Function.update st (reflect p) (b p).state else st

/-- `End`'s scratch array `var states [NUM_ROWS][NUM_COLS]TileState`
after the first loop: starts at the Go zero value (`EmptyTile`) and is
filled by the row-major loop. -/
def buildReflectedStates (b : Board) : Pos → TileState :=
  rowMajor.foldl (reflectStep b) (fun _ => .EmptyTile)

/-- `End`'s second loop: commit every symbol entry of `states` back
onto the board, touching only `.state` (each visited cell is written
independently, so the loop is rendered pointwise).  Cells whose
`states` entry is not a symbol are left exactly as they were. -/
def commitReflectedStates (b : Board) (st : Pos → TileState) : Board :=
  fun p => if isSymbol (st p) then { b p with state := st p } else b p

/-- The full point-reflection transform performed at the start of
`End` (after the `MouseOverTile` clear). -/
def transformBoard (b : Board) : Board :=
  commitReflectedStates b (buildReflectedStates b)

/-- `End`'s center scan: `objectiveRow := 0`, then the first row (top
to bottom) whose cell in `col` holds `CenterTile`, if any. -/
def findCenterRow (b : Board) (col : Fin NUM_COLS) : Fin NUM_ROWS :=
  ((List.finRange NUM_ROWS).find? fun r => (b (r, col)).state = .CenterTile).getD 0

/-- `End`'s candidate disambiguation: with the candidate list `posible`
from `TilesAroundATileWithAnState`, no candidate means no resolution, a
single candidate is taken as is, and with several the loop selects the
first one having exactly one `CenterTile` among its own two-step
neighbors (`found` stays false when none qualifies). -/
def selectObjective (b : Board) (row : Fin NUM_ROWS) (col : Fin NUM_COLS)
    (sym : TileState) : Option Pos :=
  let posible := TilesAroundATileWithAnState b row col sym
  match posible with
  | [] => none
  | [p] => some p
  | _ =>
    posible.find? fun p => (TilesAroundATileWithAnState b p.1 p.2 .CenterTile).length = 1

/-- The win test of `End`, exactly as the nested conditionals of the
source (`objectivePosition`, `g.centerSymbolPosition`,
`playerPosition`).  Note the first branch of the vertical case guards
on `objective.row < center.row && center.row < player.row` and then
requires `player.row < center.row` inside, mirroring the source
verbatim. -/
def resolveWin (objectivePosition centerPosition playerPosition : Pos) : Bool :=
  if objectivePosition.1 = centerPosition.1 ∧ centerPosition.1 = playerPosition.1 then
    if objectivePosition.2 < centerPosition.2 then
      decide (playerPosition.2 > objectivePosition.2 ∧ playerPosition.2 < centerPosition.2)
    else
      decide (playerPosition.2 < objectivePosition.2 ∧ playerPosition.2 > centerPosition.2)
  else if objectivePosition.2 = centerPosition.2 ∧ centerPosition.2 = playerPosition.2 then
    if objectivePosition.1 < centerPosition.1 ∧ centerPosition.1 < playerPosition.1 then
      decide (playerPosition.1 > objectivePosition.1 ∧ playerPosition.1 < centerPosition.1)
    else
      decide (playerPosition.1 < objectivePosition.1 ∧ playerPosition.1 > centerPosition.1)
  else false

/-- The board as `End` leaves it before the center scan: transient
`MouseOverTile` marks cleared, then the reflection transform. -/
def endBoard (g : Game) : Board :=
  transformBoard (RemoveTileWithState g.board .MouseOverTile)

/-- `objectiveColumn := g.columnObjective * 2`. -/
def endObjectiveColumn (g : Game) : Fin NUM_COLS :=
  ⟨2 * g.columnObjective.val,
   Nat.lt_of_le_of_lt (Nat.mul_le_mul_left 2 (Nat.le_of_lt_succ g.columnObjective.isLt))
     (by exact Nat.lt_succ_self 6)⟩

/-- The resolved objective of `End` (`found`/`objectivePosition`). -/
def endSelection (g : Game) : Option Pos :=
  selectObjective (endBoard g) (findCenterRow (endBoard g) (endObjectiveColumn g))
    (endObjectiveColumn g) g.symbolObjective

/-- `End`: clear transient marks, reflect the board, locate the center
anchor in the objective column, select the objective candidate, and if
one was found store both marker positions and run the win test against
the player's `PlayerTile` cell (replacing the displayed objective
marker by the player's cell on a win).  Always finishes in
`EndState`. -/
def End (g : Game) : Game :=
  let b1 := endBoard g
  let centerPos : Pos := (findCenterRow b1 (endObjectiveColumn g), endObjectiveColumn g)
  match endSelection g with
  | none => { g with board := b1, state := .EndState }
  | some objectivePosition =>
    let g1 := { g with board := b1,
                       objectiveSymbolPosition := objectivePosition,
                       centerSymbolPosition := centerPos,
                       state := .EndState }
    match FindPlayerPosition b1 with
    | none => g1
    | some playerPosition =>
      if resolveWin objectivePosition centerPos playerPosition then
        { g1 with objectiveSymbolPosition := playerPosition, win := true }
      else g1

/-- The direct field writes `g.board[r][c].state = InvalidTile` used by
`Reset` for the six permanent gaps (no rotation reset, unlike
`SetTile`). -/
def setStateOnly (b : Board) (r : Fin NUM_ROWS) (c : Fin NUM_COLS) (s : TileState) : Board :=
  fun p => if p = (r, c) then { b p with state := s } else b p

/-- The board `Reset` builds: every cell `EmptyTile` with rotation `0`,
the six permanent `InvalidTile` gaps, then the twelve `SetTile` calls
in source order (whose first argument is the column). -/
def resetBoard : Board :=
  let b0 : Board := fun _ => { state := .EmptyTile, rotation := 0 }
  let b1 := setStateOnly b0 1 1 .InvalidTile
  let b2 := setStateOnly b1 3 1 .InvalidTile
  let b3 := setStateOnly b2 1 3 .InvalidTile
  let b4 := setStateOnly b3 3 3 .InvalidTile
  let b5 := setStateOnly b4 1 5 .InvalidTile
  let b6 := setStateOnly b5 3 5 .InvalidTile
  let b7 := SetTile b6 0 0 .BetaTile
  let b8 := SetTile b7 0 2 .CenterTile
  let b9 := SetTile b8 0 4 .AlphaTile
  let b10 := SetTile b9 2 0 .CenterTile
  let b11 := SetTile b10 2 2 .AlphaTile
  let b12 := SetTile b11 2 4 .BetaTile
  let b13 := SetTile b12 4 0 .BetaTile
  let b14 := SetTile b13 4 2 .BetaTile
  let b15 := SetTile b14 4 4 .CenterTile
  let b16 := SetTile b15 6 0 .AlphaTile
  let b17 := SetTile b16 6 2 .CenterTile
  SetTile b17 6 4 .AlphaTile

/-- `Reset`: repopulate the board to the fixed layout, enter
`PlayingState`, restart the countdown, draw the round's objective
(`sym` and `colObj` stand for the two random draws) and clear the win
flag.  The source does not touch `centerSymbolPosition` or
`objectiveSymbolPosition` here. -/
def Reset (sym : TileState) (colObj : Fin 4) (g : Game) : Game :=
  { g with board := resetBoard,
           state := .PlayingState,
           timeLeft := MAX_TIME * 1000,
           symbolObjective := sym,
           columnObjective := colObj,
           win := false }

/-- `Standby`: every cell becomes `InvalidTile` (state only) and the
session enters `StandByState`. -/
def Standby (g : Game) : Game :=
  { g with board := fun p => { g.board p with state := .InvalidTile },
           state := .StandByState }

/-- The game as `New` builds it: the Go zero value of the struct,
then `Standby` (rendering-only fields omitted). -/
def initGame : Game :=
  Standby
    { board := fun _ => { state := .EmptyTile, rotation := 0 },
      symbolObjective := .EmptyTile,
      columnObjective := 0,
      centerSymbolPosition := (0, 0),
      objectiveSymbolPosition := (0, 0),
      win := false,
      state := .StandByState,
      timeLeft := 0 }

/-- `UpdateTimeBar`: subtract the measured elapsed time from
`timeLeft`; on reaching (or crossing) zero, clamp to `0` and run
`End`. -/
def UpdateTimeBar (elapsed : ℤ) (g : Game) : Game :=
  let t := g.timeLeft - elapsed
  if t ≤ 0 then End { g with timeLeft := 0 } else { g with timeLeft := t }

/-- The per-tick external snapshot: elapsed wall-clock time since the
previous tick, the cursor hit test per cell, and the left-button
state. -/
structure TickInput where
  elapsed : ℤ
  hit : Pos → Bool
  pressed : Bool

/-- One `Update` tick.  In `PlayingState` the source runs
`UpdateTimeBar`, `UpdateBoard` and `HandleMouseInBoard`, in that order
(all three, even if `UpdateTimeBar` just ended the round).  In
`StandByState`/`EndState` only `UpdateButtons` runs, which touches the
board and timer not at all; a button activation leads to `Reset`, which
is modelled as its own step, so a tick without it leaves the game
unchanged. -/
def Update (i : TickInput) (g : Game) : Game :=
  match g.state with
  | .StandByState => g
  | .PlayingState =>
    let g1 := UpdateTimeBar i.elapsed g
    let g2 := { g1 with board := UpdateBoard g1.board }
    { g2 with board := HandleMouseInBoard i.hit i.pressed g2.board }
  | .EndState => g

/-- A sequence of ticks. -/
def runUpdates (l : List TickInput) (g : Game) : Game :=
  l.foldl (fun g i => Update i g) g

/-- Total elapsed time of a tick sequence. -/
def elapsedSum (l : List TickInput) : ℤ :=
  (l.map fun i => i.elapsed).sum

/-- A board whose only populated cell is an `AlphaTile` at `(0, 0)`:
its symbol support is not closed under the point reflection. -/
def singleAlphaBoard : Board := fun p =>
  if p = ((0 : Fin 5), (0 : Fin 7)) then { state := .AlphaTile, rotation := 0 }
  else { state := .EmptyTile, rotation := 0 }

lemma reflect_reflect : ∀ p : Pos, reflect (reflect p) = p := by decide

lemma rowMajor_nodup : rowMajor.Nodup := by decide

lemma mem_rowMajor : ∀ p : Pos, p ∈ rowMajor := by decide

/-- A cell whose reflected source is not visited by (a suffix of) the
reflection loop keeps its current scratch-array entry. -/
lemma foldl_reflectStep_not_mem (b : Board) :
    ∀ (l : List Pos) (st : Pos → TileState) (p : Pos), reflect p ∉ l →
      l.foldl (reflectStep b) st p = st p := by
  intro l
  induction l with
  | nil => intro st p _; rfl
  | cons q t ih =>
    intro st p h
    have hq : reflect p ≠ q := fun hqe => h (hqe ▸ List.mem_cons_self q t)
    have ht : reflect p ∉ t := fun hmem => h (List.mem_cons_of_mem _ hmem)
    rw [List.foldl_cons, ih (reflectStep b st q) p ht]
    unfold reflectStep
    by_cases hs : isSymbol (b q).state
    · rw [if_pos hs]
      have hne : p ≠ reflect q := by
        intro he
        exact hq (by rw [he, reflect_reflect])
      exact Function.update_noteq hne _ _
    · rw [if_neg hs]

/-- The scratch `states` array after the reflection loop, pointwise:
each cell receives the symbol of its reflected source cell, and
`EmptyTile` (the Go zero value) when that source holds no symbol.  This
is where the loop's aliasing is discharged: the reflection is an
involution, hence injective, so each `states` entry is written by at
most one iteration. -/
lemma buildReflectedStates_apply (b : Board) (p : Pos) :
    buildReflectedStates b p =
      if isSymbol (b (reflect p)).state then (b (reflect p)).state else .EmptyTile := by
  obtain ⟨l₁, l₂, hsplit⟩ := List.append_of_mem (mem_rowMajor (reflect p))
  have hnd : (l₁ ++ reflect p :: l₂).Nodup := hsplit ▸ rowMajor_nodup
  have h₁ : reflect p ∉ l₁ := by
    have hd := (List.nodup_append.mp hnd).2.2
    intro hmem
    exact hd hmem (List.mem_cons_self _ _)
  have h₂ : reflect p ∉ l₂ := (List.nodup_cons.mp (List.nodup_append.mp hnd).2.1).1
  unfold buildReflectedStates
  rw [hsplit, List.foldl_append, List.foldl_cons,
      foldl_reflectStep_not_mem b l₂ _ p h₂]
  unfold reflectStep
  by_cases hs : isSymbol (b (reflect p)).state
  · rw [if_pos hs, if_pos hs, reflect_reflect]
    exact Function.update_same _ _ _
  · rw [if_neg hs, if_neg hs]
    exact foldl_reflectStep_not_mem b l₁ _ p h₁

/-- The committed transform, pointwise: a cell whose reflected source
holds a symbol takes that symbol (rotation untouched); every other
cell — including one still holding a symbol of its own — is left
exactly as it was. -/
lemma transformBoard_apply (b : Board) (p : Pos) :
    transformBoard b p =
      if isSymbol (b (reflect p)).state
      then { b p with state := (b (reflect p)).state } else b p := by
  unfold transformBoard commitReflectedStates
  rw [buildReflectedStates_apply]
  by_cases hs : isSymbol (b (reflect p)).state
  · simp [hs]
  · have hs2 : isSymbol (b (reflect p)).state = false := by
      revert hs; cases isSymbol (b (reflect p)).state <;> simp
    simp [hs2]
    intro hx
    exact absurd hx (by decide)

/-- C5 (amended): one application of `End`'s point-reflection transform
gives every cell whose reflected source `(rows-1-r, cols-1-c)` holds an
Alpha/Beta/Center symbol exactly that symbol (overwriting the prior
state, keeping the rotation), and leaves every cell whose reflected
source holds no symbol entirely unchanged — including cells that
already held a symbol, which therefore retain it even when the
reflection placed nothing there. -/
theorem transform_pointwise_characterization (b : Board) (p : Pos) :
    (transformBoard b p).state =
      (if isSymbol (b (reflect p)).state then (b (reflect p)).state else (b p).state)
    ∧ (transformBoard b p).rotation = (b p).rotation := by
  rw [transformBoard_apply]
  by_cases hs : isSymbol (b (reflect p)).state <;> simp [hs]

/-- C5 (counterexample to the claim as stated): on the board holding a
single `AlphaTile` at `(0,0)`, the transform places an `AlphaTile` at
`(4,6)` but cell `(0,0)` also still holds its `AlphaTile`, although the
reflection placed no symbol there (its source `(4,6)` was empty). -/
theorem transform_retains_stale_symbol :
    (transformBoard singleAlphaBoard ((0 : Fin 5), (0 : Fin 7))).state = .AlphaTile
    ∧ (singleAlphaBoard (reflect ((0 : Fin 5), (0 : Fin 7)))).state = .EmptyTile
    ∧ (transformBoard singleAlphaBoard ((4 : Fin 5), (6 : Fin 7))).state = .AlphaTile := by
  decide

/-- C3 (amended): on every board whose set of symbol-holding cells is
closed under the point reflection — in particular the fixed reset
layout — applying the transform twice restores the board exactly. -/
theorem transform_involution_on_symmetric_support (b : Board)
    (h : ∀ p : Pos, isSymbol (b (reflect p)).state = isSymbol (b p).state) :
    transformBoard (transformBoard b) = b := by
  funext p
  have h1 := transformBoard_apply b
  have h2 := transformBoard_apply (transformBoard b) p
  rw [h1 (reflect p)] at h2
  rw [h1 p] at h2
  rw [reflect_reflect] at h2
  rw [h2]
  have hp := h p
  by_cases hs : isSymbol (b p).state = true
  · rw [hs] at hp
    simp [hs, hp]
  · have hs2 : isSymbol (b p).state = false := by
      revert hs; cases isSymbol (b p).state <;> simp
    rw [hs2] at hp
    simp [hs2, hp]

/-- Witness for the amended C3 at the fixed reset layout. -/
theorem transform_involution_reset_witness :
    transformBoard (transformBoard resetBoard) = resetBoard :=
  transform_involution_on_symmetric_support resetBoard (by decide)

/-- C3 (counterexample to the claim as stated): for the board holding a
single `AlphaTile` at `(0,0)`, two applications of the transform leave
an `AlphaTile` at `(4,6)`, a cell that was empty at the start, so the
double transform is not the identity on every board. -/
theorem transform_not_involutive_in_general :
    (transformBoard (transformBoard singleAlphaBoard) ((4 : Fin 5), (6 : Fin 7))).state
        = .AlphaTile
    ∧ (singleAlphaBoard ((4 : Fin 5), (6 : Fin 7))).state = .EmptyTile := by
  decide

/-- Modelled from the spec (claim C4's reference definition): the four
two-step probe cells around `(row, col)` in the fixed order up, down,
left, right, each present when in bounds. -/
def twoStepProbes (row : Fin NUM_ROWS) (col : Fin NUM_COLS) : List Pos :=
  (if _h : 1 < row.val then
    [((⟨row.val - 2, Nat.lt_of_le_of_lt (Nat.sub_le _ _) row.isLt⟩ : Fin NUM_ROWS), col)]
  else []) ++
  (if h : row.val < NUM_ROWS - 2 then
    [((⟨row.val + 2, Nat.add_lt_of_lt_sub h⟩ : Fin NUM_ROWS), col)]
  else []) ++
  (if _h : 1 < col.val then
    [(row, (⟨col.val - 2, Nat.lt_of_le_of_lt (Nat.sub_le _ _) col.isLt⟩ : Fin NUM_COLS))]
  else []) ++
  (if h : col.val < NUM_COLS - 2 then
    [(row, (⟨col.val + 2, Nat.add_lt_of_lt_sub h⟩ : Fin NUM_COLS))]
  else [])

/-- Modelled from the spec (claim C4's reference definition): zero
candidates means no resolution; a unique candidate is selected
regardless of the neighbor-count filter; among several candidates the
first one (in the up/down/left/right probe order) whose own two-step
neighbors contain exactly one `CenterTile` is selected, and none
qualifying means no resolution. -/
def specSelectObjective (b : Board) (row : Fin NUM_ROWS) (col : Fin NUM_COLS)
    (sym : TileState) : Option Pos :=
  let candidates := (twoStepProbes row col).filter fun p => (b p).state = sym
  match candidates with
  | [] => none
  | [p] => some p
  | _ =>
    candidates.find? fun p =>
      ((twoStepProbes p.1 p.2).filter fun q => (b q).state = .CenterTile).length = 1

/-- The source's probe helper produces exactly the in-bounds two-step
probes filtered by the wanted state, in probe order. -/
lemma tilesAround_eq_filter (b : Board) (row : Fin NUM_ROWS) (col : Fin NUM_COLS)
    (s : TileState) :
    TilesAroundATileWithAnState b row col s =
      (twoStepProbes row col).filter fun p => (b p).state = s := by
  unfold TilesAroundATileWithAnState twoStepProbes
  rw [List.filter_append, List.filter_append, List.filter_append]
  by_cases h1 : 1 < row.val <;> by_cases h2 : row.val < NUM_ROWS - 2 <;>
    by_cases h3 : 1 < col.val <;> by_cases h4 : col.val < NUM_COLS - 2 <;>
    simp [h1, h2, h3, h4, List.filter_cons, List.filter_nil]

/-- C4: the candidate disambiguation implemented by `End` coincides
with the spec's reference definition for every board, anchor cell and
objective symbol. -/
theorem selectObjective_eq_spec (b : Board) (row : Fin NUM_ROWS) (col : Fin NUM_COLS)
    (sym : TileState) :
    selectObjective b row col sym = specSelectObjective b row col sym := by
  unfold selectObjective specSelectObjective
  simp only [tilesAround_eq_filter]

/-- A board with every cell empty (rotation 0). -/
def allEmptyBoard : Board := fun _ => { state := .EmptyTile, rotation := 0 }

/-- A successful `find?` splits its list at the found element, with the
predicate false on everything before it. -/
lemma find?_decomp {α : Type} (p : α → Bool) :
    ∀ (l : List α) (x : α), l.find? p = some x →
      ∃ l₁ l₂, l = l₁ ++ x :: l₂ ∧ ∀ y ∈ l₁, p y = false := by
  intro l
  induction l with
  | nil => intro x h; cases h
  | cons a t ih =>
    intro x h
    by_cases ha : p a = true
    · rw [List.find?_cons_of_pos _ ha] at h
      obtain rfl : a = x := Option.some.inj h
      exact ⟨[], t, rfl, by intro y hy; cases hy⟩
    · have ha2 : p a = false := by revert ha; cases p a <;> simp
      rw [List.find?_cons_of_neg _ ha] at h
      obtain ⟨l₁, l₂, hl, hf⟩ := ih x h
      refine ⟨a :: l₁, l₂, by rw [List.cons_append, hl], ?_⟩
      intro y hy
      rcases List.mem_cons.mp hy with hy | hy
      · rw [hy]; exact ha2
      · exact hf y hy

/-- C6: for every post-transform board and objective column group, the
center anchor for column `g * 2` is the top-to-bottom first row holding
a `CenterTile` (no earlier row holds one), and it defaults to row `0`
when the column holds no `CenterTile` at all — in which case `End`
still feeds `(0, g*2)` to the candidate search, as `endSelection` does
unconditionally by construction. -/
theorem findCenterRow_first_center (b : Board) (gIdx : Fin 4) (col : Fin NUM_COLS)
    (hcol : col.val = 2 * gIdx.val) :
    -- `hcol` only pins `col` to the claim's column formula; the scan
    -- characterization below holds for the column itself.
    ((∃ r : Fin NUM_ROWS, (b (r, col)).state = .CenterTile) →
        (b (findCenterRow b col, col)).state = .CenterTile ∧
        ∀ r : Fin NUM_ROWS, r < findCenterRow b col → (b (r, col)).state ≠ .CenterTile)
    ∧ ((∀ r : Fin NUM_ROWS, (b (r, col)).state ≠ .CenterTile) → findCenterRow b col = 0) := by
  clear hcol
  constructor
  · rintro ⟨r0, hr0⟩
    cases hfind : (List.finRange NUM_ROWS).find?
        (fun r => decide ((b (r, col)).state = .CenterTile)) with
    | none =>
      exfalso
      have hn := List.find?_eq_none.mp hfind r0 (List.mem_finRange r0)
      simp at hn
      exact hn hr0
    | some y =>
      have hy : (b (y, col)).state = .CenterTile := by
        have := List.find?_some hfind
        simpa using this
      have hval : findCenterRow b col = y := by
        unfold findCenterRow
        rw [hfind]
        rfl
      rw [hval]
      refine ⟨hy, ?_⟩
      intro r hr hcontra
      obtain ⟨l₁, l₂, hl, hf⟩ := find?_decomp _ _ _ hfind
      have hr_mem : r ∈ l₁ := by
        have hmem : r ∈ List.finRange NUM_ROWS := List.mem_finRange r
        rw [hl] at hmem
        rcases List.mem_append.mp hmem with h | h
        · exact h
        · rcases List.mem_cons.mp h with h | h
          · exact absurd (h ▸ hr) (lt_irrefl y)
          · have hpw := List.pairwise_lt_finRange NUM_ROWS
            rw [hl] at hpw
            have hcons := (List.pairwise_append.mp hpw).2.1
            have hyr : y < r := (List.pairwise_cons.mp hcons).1 r h
            exact absurd (lt_trans hr hyr) (lt_irrefl r)
      have := hf r hr_mem
      simp at this
      exact this hcontra
  · intro hnone
    unfold findCenterRow
    have hfind : (List.finRange NUM_ROWS).find?
        (fun r => decide ((b (r, col)).state = .CenterTile)) = none := by
      apply List.find?_eq_none.mpr
      intro x _
      simp
      exact hnone x
    rw [hfind]
    rfl

/-- Witness for C6: on the transformed reset layout's column 2 (group
1) the anchor is a `CenterTile` with none above it, and on an all-empty
board's column 0 (group 0) the anchor defaults to row 0. -/
theorem findCenterRow_first_center_witness :
    ((resetBoard (findCenterRow resetBoard 2, (2 : Fin NUM_COLS))).state = .CenterTile ∧
      ∀ r : Fin NUM_ROWS, r < findCenterRow resetBoard 2 →
        (resetBoard (r, (2 : Fin NUM_COLS))).state ≠ .CenterTile)
    ∧ findCenterRow allEmptyBoard 0 = 0 :=
  ⟨(findCenterRow_first_center resetBoard 1 2 (by decide)).1 ⟨0, by decide⟩,
   (findCenterRow_first_center allEmptyBoard 0 0 (by decide)).2 (by decide)⟩

/-- A tick whose cursor hits no cell. -/
def noHit : Pos → Bool := fun _ => false

/-- A tick whose cursor hits exactly the cell `q`. -/
def hitOnly (q : Pos) : Pos → Bool := fun p => decide (p = q)

lemma End_timeLeft (g : Game) : (End g).timeLeft = g.timeLeft := by
  simp only [End]
  split
  · rfl
  · split
    · rfl
    · split <;> rfl

lemma End_state (g : Game) : (End g).state = .EndState := by
  simp only [End]
  split
  · rfl
  · split
    · rfl
    · split <;> rfl

/-- `Update` in `StandByState`/`EndState` leaves the game unchanged
(only `UpdateButtons` runs there). -/
lemma runUpdates_end_fixed :
    ∀ (l : List TickInput) (g : Game), g.state = .EndState → runUpdates l g = g := by
  intro l
  induction l with
  | nil => intro g _; rfl
  | cons i t ih =>
    intro g hg
    have hstep : Update i g = g := by
      unfold Update
      rw [hg]
    show runUpdates t (Update i g) = g
    rw [hstep]
    exact ih g hg

/-- In `PlayingState`, the tick's timer and state come from
`UpdateTimeBar` (the two later board passes touch only the board). -/
lemma Update_playing (i : TickInput) (g : Game) (hg : g.state = .PlayingState) :
    (Update i g).timeLeft = (UpdateTimeBar i.elapsed g).timeLeft
    ∧ (Update i g).state = (UpdateTimeBar i.elapsed g).state := by
  unfold Update
  rw [hg]
  exact ⟨rfl, rfl⟩

lemma elapsedSum_nil : elapsedSum [] = 0 := rfl

lemma elapsedSum_cons (i : TickInput) (t : List TickInput) :
    elapsedSum (i :: t) = i.elapsed + elapsedSum t := by
  simp [elapsedSum]

lemma elapsedSum_nonneg (l : List TickInput) (h : ∀ i ∈ l, 0 ≤ i.elapsed) :
    0 ≤ elapsedSum l := by
  apply List.sum_nonneg
  intro x hx
  obtain ⟨i, hi, rfl⟩ := List.mem_map.mp hx
  exact h i hi

/-- C7: over any tick sequence with non-negative elapsed times, started
in `PlayingState` with a positive countdown, the countdown after the
run equals the clamp `max 0 (start - total elapsed)` — so it is never
negative — and the session is in `EndState` exactly when the elapsed
total has reached the countdown.  Because this holds for every prefix
of a tick sequence as well (a prefix is itself a sequence), the
`PlayingState`-to-`EndState` transition happens exactly once, on the
first tick whose cumulative elapsed time reaches the countdown, and
later ticks change neither the timer nor the state. -/
theorem countdown_clamps_and_transitions_once :
    ∀ (l : List TickInput) (g : Game), g.state = .PlayingState → 0 < g.timeLeft →
      (∀ i ∈ l, 0 ≤ i.elapsed) →
      (runUpdates l g).timeLeft = max 0 (g.timeLeft - elapsedSum l)
      ∧ ((runUpdates l g).state =
          if g.timeLeft ≤ elapsedSum l then GameState.EndState else GameState.PlayingState) := by
  intro l
  induction l with
  | nil =>
    intro g hg ht _
    constructor
    · show g.timeLeft = max 0 (g.timeLeft - elapsedSum [])
      rw [elapsedSum_nil, sub_zero]
      exact (max_eq_right ht.le).symm
    · show g.state = if g.timeLeft ≤ elapsedSum [] then _ else _
      rw [elapsedSum_nil, if_neg (not_le.mpr ht)]
      exact hg
  | cons i t ih =>
    intro g hg ht hall
    have htl : ∀ j ∈ t, 0 ≤ j.elapsed := fun j hj => hall j (List.mem_cons_of_mem _ hj)
    have hrun : runUpdates (i :: t) g = runUpdates t (Update i g) := rfl
    by_cases hc : g.timeLeft - i.elapsed ≤ 0
    · have hTL : (Update i g).timeLeft = 0 := by
        rw [(Update_playing i g hg).1]
        unfold UpdateTimeBar
        rw [if_pos hc, End_timeLeft]
      have hST : (Update i g).state = .EndState := by
        rw [(Update_playing i g hg).2]
        unfold UpdateTimeBar
        rw [if_pos hc, End_state]
      have hfix := runUpdates_end_fixed t (Update i g) hST
      have hles : g.timeLeft ≤ elapsedSum (i :: t) := by
        rw [elapsedSum_cons]
        have := elapsedSum_nonneg t htl
        linarith
      constructor
      · rw [hrun, hfix, hTL]
        have hneg : g.timeLeft - elapsedSum (i :: t) ≤ 0 := by linarith
        exact (max_eq_left hneg).symm
      · rw [hrun, hfix, hST, if_pos hles]
    · have hTL : (Update i g).timeLeft = g.timeLeft - i.elapsed := by
        rw [(Update_playing i g hg).1]
        unfold UpdateTimeBar
        rw [if_neg hc]
      have hST : (Update i g).state = .PlayingState := by
        rw [(Update_playing i g hg).2]
        unfold UpdateTimeBar
        rw [if_neg hc]
        exact hg
      have hpos : 0 < (Update i g).timeLeft := by
        rw [hTL]
        exact not_le.mp hc
      obtain ⟨ih1, ih2⟩ := ih (Update i g) hST hpos htl
      constructor
      · rw [hrun, ih1, hTL, elapsedSum_cons, sub_sub]
      · rw [hrun, ih2, hTL, elapsedSum_cons]
        simp only [sub_le_iff_le_add']

/-- Witness for C7: a fresh round hit by a single 16-second
(16000 ms) tick ends in
`EndState` with the countdown clamped at the stated maximum formula. -/
theorem countdown_clamps_witness :
    (runUpdates [⟨16000, noHit, false⟩] (Reset .AlphaTile 0 initGame)).timeLeft
        = max 0 ((Reset .AlphaTile 0 initGame).timeLeft - elapsedSum [⟨16000, noHit, false⟩])
    ∧ ((runUpdates [⟨16000, noHit, false⟩] (Reset .AlphaTile 0 initGame)).state =
        if (Reset .AlphaTile 0 initGame).timeLeft ≤ elapsedSum [⟨16000, noHit, false⟩]
        then GameState.EndState else GameState.PlayingState) :=
  countdown_clamps_and_transitions_once [⟨16000, noHit, false⟩] (Reset .AlphaTile 0 initGame)
    rfl (by decide) (by decide)

/-- Modelled from the spec (claim C1's win condition): the player,
center and objective cells share a row or a column, and the player lies
strictly between the two endpoints on that shared axis. -/
def specWinCondition (objective center player : Pos) : Bool :=
  decide ((objective.1 = center.1 ∧ center.1 = player.1 ∧
      min objective.2.val center.2.val < player.2.val ∧
      player.2.val < max objective.2.val center.2.val)
    ∨ (objective.2 = center.2 ∧ center.2 = player.2 ∧
      min objective.1.val center.1.val < player.1.val ∧
      player.1.val < max objective.1.val center.1.val))

/-- A full round played from the fixed reset layout with objective
symbol Alpha and column group 3: the player selects cell `(1, 6)`, then
the countdown runs out. -/
def roundGroupThree : Game :=
  runUpdates [⟨0, hitOnly ((1 : Fin 5), (6 : Fin 7)), true⟩, ⟨16000, noHit, false⟩]
    (Reset .AlphaTile 3 initGame)

/-- C1 (evaluation at the failing input): in the round above the
resolution finds center `(2, 6)` and objective `(0, 6)` — the objective
sits above the center in the shared column 6 — and the player's
`PlayerTile` at `(1, 6)` is strictly between them, so the claimed win
condition holds; yet the game ends with `win = false`, because the
first branch of the source's vertical win check requires
`center.row < player.row` while its body requires
`player.row < center.row`, leaving no winnable cell when the objective
resolves above the center. -/
theorem end_win_check_misses_vertical_between :
    roundGroupThree.win = false
    ∧ roundGroupThree.state = .EndState
    ∧ roundGroupThree.centerSymbolPosition = ((2 : Fin 5), (6 : Fin 7))
    ∧ roundGroupThree.objectiveSymbolPosition = ((0 : Fin 5), (6 : Fin 7))
    ∧ (roundGroupThree.board ((1 : Fin 5), (6 : Fin 7))).state = .PlayerTile
    ∧ specWinCondition ((0 : Fin 5), (6 : Fin 7)) ((2 : Fin 5), (6 : Fin 7))
        ((1 : Fin 5), (6 : Fin 7)) = true := by
  decide

/-- A playing-state game carrying marker positions from an earlier
round on a board that yields no resolution. -/
def staleGame : Game :=
  { board := allEmptyBoard,
    symbolObjective := .AlphaTile,
    columnObjective := 0,
    centerSymbolPosition := ((1 : Fin 5), (1 : Fin 7)),
    objectiveSymbolPosition := ((1 : Fin 5), (1 : Fin 7)),
    win := false,
    state := .PlayingState,
    timeLeft := 0 }

/-- C2 (counterexample to the claim as stated): `Reset` leaves both
marker positions at their previous values `(1, 1)` instead of clearing
them, and a round that resolves nothing ends with the stale `(1, 1)`
markers rather than the default `(0, 0)`. -/
theorem reset_keeps_stale_markers :
    (Reset .BetaTile 2 staleGame).objectiveSymbolPosition = ((1 : Fin 5), (1 : Fin 7))
    ∧ (Reset .BetaTile 2 staleGame).centerSymbolPosition = ((1 : Fin 5), (1 : Fin 7))
    ∧ endSelection staleGame = none
    ∧ (End staleGame).win = false
    ∧ (End staleGame).objectiveSymbolPosition = ((1 : Fin 5), (1 : Fin 7)) := by
  decide

/-- C2 (amended): `Reset` clears only the win flag — both marker
positions keep whatever values they had — and a round whose resolution
finds no objective ends with the win flag and both marker positions
exactly as they entered `End` (so they are `(0, 0)` only if no earlier
round ever set them). -/
theorem reset_and_unresolved_end_keep_markers (g : Game) (sym : TileState) (colObj : Fin 4) :
    (Reset sym colObj g).win = false
    ∧ (Reset sym colObj g).centerSymbolPosition = g.centerSymbolPosition
    ∧ (Reset sym colObj g).objectiveSymbolPosition = g.objectiveSymbolPosition
    ∧ (endSelection g = none →
        (End g).win = g.win
        ∧ (End g).centerSymbolPosition = g.centerSymbolPosition
        ∧ (End g).objectiveSymbolPosition = g.objectiveSymbolPosition) := by
  refine ⟨rfl, rfl, rfl, ?_⟩
  intro h
  unfold End
  rw [h]
  exact ⟨rfl, rfl, rfl⟩

/-- Witness for the amended C2 at the stale game above. -/
theorem reset_and_unresolved_end_keep_markers_witness :
    (Reset .AlphaTile 1 staleGame).win = false
    ∧ (Reset .AlphaTile 1 staleGame).centerSymbolPosition = staleGame.centerSymbolPosition
    ∧ (Reset .AlphaTile 1 staleGame).objectiveSymbolPosition = staleGame.objectiveSymbolPosition
    ∧ ((End staleGame).win = staleGame.win
        ∧ (End staleGame).centerSymbolPosition = staleGame.centerSymbolPosition
        ∧ (End staleGame).objectiveSymbolPosition = staleGame.objectiveSymbolPosition) := by
  have h := reset_and_unresolved_end_keep_markers staleGame .AlphaTile 1
  exact ⟨h.1, h.2.1, h.2.2.1, h.2.2.2 (by decide)⟩

/-- A board whose only mark is a `MouseOverTile` at `(0, 0)` with a
non-zero accumulated rotation. -/
def spinningBoard : Board := fun p =>
  if p = ((0 : Fin 5), (0 : Fin 7)) then { state := .MouseOverTile, rotation := 5 }
  else { state := .EmptyTile, rotation := 0 }

/-- C8 (counterexample to the claim as stated): clearing the
`MouseOverTile` at `(0, 0)` changes that cell's state to `EmptyTile`
but leaves its rotation at `5` instead of resetting it to `0`. -/
theorem state_change_without_rotation_reset :
    ((RemoveTileWithState spinningBoard .MouseOverTile) ((0 : Fin 5), (0 : Fin 7))).state
        = .EmptyTile
    ∧ (spinningBoard ((0 : Fin 5), (0 : Fin 7))).state = .MouseOverTile
    ∧ ((RemoveTileWithState spinningBoard .MouseOverTile) ((0 : Fin 5), (0 : Fin 7))).rotation
        = 5 := by
  decide

/-- C8 (amended): the only rotation reset is the one `SetTile` performs
on the single cell it writes; every other state change — the clearing
of prior holders inside `SetTile`, `RemoveTileWithState`, and the
symbol commit of `End`'s transform — leaves the affected cell's
rotation unchanged. -/
theorem rotation_reset_only_at_setTile_target (b : Board) (c : Fin NUM_COLS)
    (r : Fin NUM_ROWS) (s s2 : TileState) (p : Pos) :
    ((SetTile b c r s) p).rotation = (if p = (r, c) then 0 else (b p).rotation)
    ∧ ((RemoveTileWithState b s2) p).rotation = (b p).rotation
    ∧ ((transformBoard b) p).rotation = (b p).rotation := by
  refine ⟨?_, ?_, ?_⟩
  · unfold SetTile
    by_cases hp : p = (r, c)
    · simp [hp]
    · simp [hp]
      by_cases hguard : s = .PlayerTile ∨ s = .MouseOverTile
      · simp [hguard]
        unfold RemoveTileWithState
        by_cases hbs : (b p).state = s <;> simp [hbs]
      · simp [hguard]
  · unfold RemoveTileWithState
    by_cases hbs : (b p).state = s2 <;> simp [hbs]
  · rw [transformBoard_apply]
    by_cases hsym : isSymbol (b (reflect p)).state <;> simp [hsym]

/-- At most one cell of the board holds state `s`. -/
def atMostOne (b : Board) (s : TileState) : Prop :=
  ∀ p q : Pos, (b p).state = s → (b q).state = s → p = q

lemma state_RemoveTileWithState (b : Board) (s : TileState) (p : Pos) :
    ((RemoveTileWithState b s) p).state =
      if (b p).state = s then TileState.EmptyTile else (b p).state := by
  unfold RemoveTileWithState
  by_cases h : (b p).state = s <;> simp [h]

lemma state_SetTile (b : Board) (c : Fin NUM_COLS) (r : Fin NUM_ROWS) (s : TileState) (p : Pos) :
    ((SetTile b c r s) p).state =
      if p = (r, c) then s
      else if s = .PlayerTile ∨ s = .MouseOverTile then
        (if (b p).state = s then TileState.EmptyTile else (b p).state)
      else (b p).state := by
  unfold SetTile
  by_cases hp : p = (r, c)
  · simp [hp]
  · simp [hp]
    by_cases hg : s = .PlayerTile ∨ s = .MouseOverTile
    · simp [hg, state_RemoveTileWithState]
    · simp [hg]

/-- Writing a `PlayerTile`/`MouseOverTile` leaves that mark on exactly
the written cell: `SetTile` first clears all prior holders. -/
lemma atMostOne_after_SetTile_self (b : Board) (c : Fin NUM_COLS) (r : Fin NUM_ROWS)
    (s : TileState) (hs : s = .PlayerTile ∨ s = .MouseOverTile) :
    atMostOne (SetTile b c r s) s := by
  have hsne : s ≠ .EmptyTile := by rcases hs with h | h <;> subst h <;> decide
  have key : ∀ x : Pos, ((SetTile b c r s) x).state = s → x = (r, c) := by
    intro x hx
    rw [state_SetTile] at hx
    by_cases hxe : x = (r, c)
    · exact hxe
    · exfalso
      rw [if_neg hxe, if_pos hs] at hx
      by_cases hbx : (b x).state = s
      · rw [if_pos hbx] at hx
        exact hsne hx.symm
      · rw [if_neg hbx] at hx
        exact hbx hx
  intro p q hp hq
  rw [key p hp, key q hq]

/-- Writing one mark state does not create new holders of the other
mark state. -/
lemma atMostOne_after_SetTile_other (b : Board) (c : Fin NUM_COLS) (r : Fin NUM_ROWS)
    (s s' : TileState) (hguard : s = .PlayerTile ∨ s = .MouseOverTile)
    (hne : s' ≠ s) (hsne : s' ≠ .EmptyTile) (h : atMostOne b s') :
    atMostOne (SetTile b c r s) s' := by
  have key : ∀ x : Pos, ((SetTile b c r s) x).state = s' → (b x).state = s' := by
    intro x hx
    rw [state_SetTile] at hx
    by_cases hxe : x = (r, c)
    · rw [if_pos hxe] at hx
      exact absurd hx (Ne.symm hne)
    · rw [if_neg hxe, if_pos hguard] at hx
      by_cases hbx : (b x).state = s
      · rw [if_pos hbx] at hx
        exact absurd hx (Ne.symm hsne)
      · rwa [if_neg hbx] at hx
  intro p q hp hq
  exact h p q (key p hp) (key q hq)

lemma state_UpdateBoard (b : Board) (p : Pos) : ((UpdateBoard b) p).state = (b p).state := by
  unfold UpdateBoard
  by_cases h : isSymbol (b p).state <;> simp [h]

lemma atMostOne_UpdateBoard (b : Board) (s : TileState) (h : atMostOne b s) :
    atMostOne (UpdateBoard b) s := by
  intro p q hp hq
  exact h p q (by rwa [state_UpdateBoard] at hp) (by rwa [state_UpdateBoard] at hq)

/-- One pointer pass preserves the uniqueness of both mark states. -/
lemma atMostOne_HandleMouse (hit : Pos → Bool) (pressed : Bool) (b : Board)
    (hM : atMostOne b .MouseOverTile) (hP : atMostOne b .PlayerTile) :
    atMostOne (HandleMouseInBoard hit pressed b) .MouseOverTile
    ∧ atMostOne (HandleMouseInBoard hit pressed b) .PlayerTile := by
  unfold HandleMouseInBoard
  cases hfind : rowMajor.find?
      (fun p => ((b p).state = .EmptyTile || (b p).state = .MouseOverTile) && hit p) with
  | none => exact ⟨hM, hP⟩
  | some q =>
    cases pressed with
    | false =>
      exact ⟨atMostOne_after_SetTile_self b q.2 q.1 .MouseOverTile (Or.inr rfl),
        atMostOne_after_SetTile_other b q.2 q.1 .MouseOverTile .PlayerTile (Or.inr rfl)
          (by decide) (by decide) hP⟩
    | true =>
      exact ⟨atMostOne_after_SetTile_other b q.2 q.1 .PlayerTile .MouseOverTile (Or.inl rfl)
          (by decide) (by decide) hM,
        atMostOne_after_SetTile_self b q.2 q.1 .PlayerTile (Or.inl rfl)⟩

/-- C9: after any sequence of playing ticks (rotation pass plus pointer
pass, each with an arbitrary per-tick cursor snapshot and button state)
applied to the freshly reset board, at most one cell holds
`MouseOverTile` and at most one holds `PlayerTile`. -/
theorem pointer_marks_at_most_one (l : List ((Pos → Bool) × Bool)) :
    atMostOne (l.foldl (fun b i => HandleMouseInBoard i.1 i.2 (UpdateBoard b)) resetBoard)
        .MouseOverTile
    ∧ atMostOne (l.foldl (fun b i => HandleMouseInBoard i.1 i.2 (UpdateBoard b)) resetBoard)
        .PlayerTile := by
  suffices h : ∀ (l : List ((Pos → Bool) × Bool)) (b : Board),
      atMostOne b .MouseOverTile → atMostOne b .PlayerTile →
      atMostOne (l.foldl (fun b i => HandleMouseInBoard i.1 i.2 (UpdateBoard b)) b)
          .MouseOverTile
      ∧ atMostOne (l.foldl (fun b i => HandleMouseInBoard i.1 i.2 (UpdateBoard b)) b)
          .PlayerTile by
    exact h l resetBoard (by unfold atMostOne; decide) (by unfold atMostOne; decide)
  intro l
  induction l with
  | nil => intro b hM hP; exact ⟨hM, hP⟩
  | cons i t ih =>
    intro b hM hP
    have hnext := atMostOne_HandleMouse i.1 i.2 (UpdateBoard b)
      (atMostOne_UpdateBoard b _ hM) (atMostOne_UpdateBoard b _ hP)
    exact ih (HandleMouseInBoard i.1 i.2 (UpdateBoard b)) hnext.1 hnext.2

/-- Witness for C9 at a concrete two-tick run. -/
theorem pointer_marks_at_most_one_witness :
    atMostOne ([(hitOnly ((0 : Fin 5), (1 : Fin 7)), false), (fun _ => true, true)].foldl
        (fun b i => HandleMouseInBoard i.1 i.2 (UpdateBoard b)) resetBoard) .MouseOverTile
    ∧ atMostOne ([(hitOnly ((0 : Fin 5), (1 : Fin 7)), false), (fun _ => true, true)].foldl
        (fun b i => HandleMouseInBoard i.1 i.2 (UpdateBoard b)) resetBoard) .PlayerTile :=
  pointer_marks_at_most_one [(hitOnly ((0 : Fin 5), (1 : Fin 7)), false), (fun _ => true, true)]

/-- The full effect of the mark write `SetTile` performs for the hit
cell found by the pointer scan. -/
lemma setTile_mark_effect (b : Board) (c : Fin NUM_COLS) (r : Fin NUM_ROWS) (s : TileState)
    (hguard : s = .PlayerTile ∨ s = .MouseOverTile)
    (htarget : (b (r, c)).state = .EmptyTile ∨ (b (r, c)).state = .MouseOverTile) (p : Pos) :
    ((b p).state = .AlphaTile ∨ (b p).state = .BetaTile ∨ (b p).state = .CenterTile
        ∨ (b p).state = .InvalidTile →
      SetTile b c r s p = b p)
    ∧ (((SetTile b c r s) p).state = .MouseOverTile ∨ ((SetTile b c r s) p).state = .PlayerTile →
      ((SetTile b c r s) p).state ≠ (b p).state →
      (b p).state = .EmptyTile ∨ (b p).state = .MouseOverTile) := by
  by_cases hp : p = (r, c)
  · subst hp
    constructor
    · intro hsym
      exfalso
      rcases htarget with h | h <;> rcases hsym with h2 | h2 | h2 | h2 <;>
        (rw [h] at h2; exact absurd h2 (by decide))
    · intro _ _
      exact htarget
  · have hval : (SetTile b c r s) p = RemoveTileWithState b s p := by
      unfold SetTile
      rw [if_neg hp, if_pos hguard]
    rw [hval]
    constructor
    · intro hsym
      unfold RemoveTileWithState
      have hnes : (b p).state ≠ s := by
        rcases hguard with hg | hg <;> subst hg <;>
          rcases hsym with h | h | h | h <;> rw [h] <;> decide
      rw [if_neg hnes]
    · intro hmark hne
      by_cases hbp : (b p).state = s
      · exfalso
        have hv : ((RemoveTileWithState b s) p).state = .EmptyTile := by
          unfold RemoveTileWithState
          rw [if_pos hbp]
        rcases hmark with h | h <;> (rw [hv] at h; exact absurd h (by decide))
      · exfalso
        have hv : ((RemoveTileWithState b s) p).state = (b p).state := by
          unfold RemoveTileWithState
          rw [if_neg hbp]
        exact hne hv

/-- C10: the pointer pass writes a mark only to a cell that was
`EmptyTile` or `MouseOverTile` immediately before the write, and never
modifies a cell holding `AlphaTile`, `BetaTile`, `CenterTile` or
`InvalidTile` — so the player's selection can never land on a symbol
or invalid cell, for every board, cursor snapshot and button state. -/
theorem pointer_ignores_symbol_cells (b : Board) (hit : Pos → Bool) (pressed : Bool) (p : Pos) :
    ((b p).state = .AlphaTile ∨ (b p).state = .BetaTile ∨ (b p).state = .CenterTile
        ∨ (b p).state = .InvalidTile →
      HandleMouseInBoard hit pressed b p = b p)
    ∧ (((HandleMouseInBoard hit pressed b) p).state = .MouseOverTile
        ∨ ((HandleMouseInBoard hit pressed b) p).state = .PlayerTile →
      ((HandleMouseInBoard hit pressed b) p).state ≠ (b p).state →
      (b p).state = .EmptyTile ∨ (b p).state = .MouseOverTile) := by
  unfold HandleMouseInBoard
  cases hfind : rowMajor.find?
      (fun q => ((b q).state = .EmptyTile || (b q).state = .MouseOverTile) && hit q) with
  | none => exact ⟨fun _ => rfl, fun _ hne => absurd rfl hne⟩
  | some q =>
    have hq := List.find?_some hfind
    simp only [Bool.and_eq_true, Bool.or_eq_true, decide_eq_true_eq] at hq
    have hqstate : (b (q.1, q.2)).state = .EmptyTile ∨ (b (q.1, q.2)).state = .MouseOverTile :=
      hq.1
    cases pressed with
    | false => exact setTile_mark_effect b q.2 q.1 .MouseOverTile (Or.inr rfl) hqstate p
    | true => exact setTile_mark_effect b q.2 q.1 .PlayerTile (Or.inl rfl) hqstate p

/-- Witness for C10: a cursor over the whole board does not modify the
`BetaTile` at `(0, 0)` of the reset layout. -/
theorem pointer_ignores_symbol_cells_witness :
    HandleMouseInBoard (fun _ => true) false resetBoard ((0 : Fin 5), (0 : Fin 7))
      = resetBoard ((0 : Fin 5), (0 : Fin 7)) :=
  (pointer_ignores_symbol_cells resetBoard (fun _ => true) false ((0 : Fin 5), (0 : Fin 7))).1
    (Or.inr (Or.inl (by decide)))

end CCT
